/-
  Verification of the filing synchronization and alerting pipeline of the
  IQterminal financial terminal.

  This file gives a shallow embedding, in Lean 4, of the Python core under
  `src/financial_terminal`: the data model (`data/models.py`), the store
  operations (`data/dao.py`), the SEC adapter's parser (`services/sec.py`)
  and the polling orchestrator (`services/poller.py`).  Pure functions are
  translated to Lean functions; the SQLAlchemy session is modelled as
  explicit state passing over a `DB` record (sessions are created with
  `autoflush=False`, so within one store call SELECTs observe only the
  committed rows, never this call's still-pending inserts); fallible code
  returns `Except`.  Theorems about the spec's claims follow the
  definitions.
-/
import Mathlib

set_option maxRecDepth 4000

namespace FinTerm

/-! ## String primitives

Python string operations used by the core, implemented over `List Char`
(the Lean core `String` versions are equivalent but do not reduce inside
the kernel, which concrete witnesses below require). -/

/-- Python `startswith`: `pre` is a literal (case-sensitive) prefix of
`s`. -/
def strStartsWith (s pre : String) : Bool :=
  pre.toList.isPrefixOf s.toList

/-- ASCII lower-casing of one character.  SQLite's default `LIKE` folds
case exactly for the ASCII letters `A`–`Z`. -/
def asciiLower (c : Char) : Char :=
  if 65 ≤ c.toNat ∧ c.toNat ≤ 90 then Char.ofNat (c.toNat + 32) else c

/-- SQLite `s LIKE \x27pre%\x27` for a literal pattern `pre`: prefix
match, case-insensitive over ASCII letters (the repo hard-codes a SQLite
engine in `db.py`, whose default `LIKE` is ASCII-case-insensitive). -/
def strStartsWithCI (s pre : String) : Bool :=
  (pre.toList.map asciiLower).isPrefixOf (s.toList.map asciiLower)

/-- Lexicographic code-point order on character lists (SQL `ORDER BY` on
a text column). -/
def charListLe : List Char → List Char → Bool
  | [], _ => true
  | _ :: _, [] => false
  | a :: as, b :: bs =>
    if a.toNat < b.toNat then true
    else if b.toNat < a.toNat then false
    else charListLe as bs

/-- `a ≤ b` on strings, lexicographically by code point. -/
def strLe (a b : String) : Bool :=
  charListLe a.toList b.toList

/-- Python `str.upper()` (ASCII range, which ticker symbols use). -/
def pyUpper (s : String) : String :=
  ⟨s.toList.map Char.toUpper⟩

/-- Python `str.strip()`: remove leading and trailing whitespace. -/
def pyStrip (s : String) : String :=
  ⟨((s.toList.dropWhile Char.isWhitespace).reverse.dropWhile Char.isWhitespace).reverse⟩

/-- Python `accession.replace("-", "")` for the single-character pattern
the adapter uses: drop every dash. -/
def stripDashes (s : String) : String :=
  ⟨s.toList.filter (fun c => !(c == '-'))⟩

/-! ## Calendar dates

`datetime.date` values.  The adapter parses them from ISO `YYYY-MM-DD`
strings via `datetime.date.fromisoformat`. -/

structure Date where
  year : Nat
  month : Nat
  day : Nat
deriving Repr, DecidableEq

def isLeapYear (y : Nat) : Bool :=
  (y % 4 == 0 && y % 100 != 0) || (y % 400 == 0)

def daysInMonth (y m : Nat) : Nat :=
  if m = 2 then (if isLeapYear y then 29 else 28)
  else if m = 4 ∨ m = 6 ∨ m = 9 ∨ m = 11 then 30
  else 31

def digitVal (c : Char) : Option Nat :=
  if c.isDigit then some (c.toNat - 48) else none

def digitsVal (cs : List Char) : Option Nat :=
  cs.foldl (fun acc c =>
    match acc, digitVal c with
    | some n, some d => some (n * 10 + d)
    | _, _ => none) (some 0)

/-- `datetime.date.fromisoformat` restricted to the `YYYY-MM-DD` shape the
SEC submissions feed uses: exactly ten characters, dashes at positions 4
and 7, all other characters digits, month in 1..12 and day within the
month (leap years included).  Anything else is a `ValueError`, i.e.
`none`. -/
def parseISODate (s : String) : Option Date :=
  match s.toList with
  | [y1, y2, y3, y4, h1, m1, m2, h2, d1, d2] =>
    if h1 = '-' ∧ h2 = '-' then
      match digitsVal [y1, y2, y3, y4], digitsVal [m1, m2], digitsVal [d1, d2] with
      | some y, some m, some d =>
        if 1 ≤ m ∧ m ≤ 12 ∧ 1 ≤ d ∧ d ≤ daysInMonth y m then some ⟨y, m, d⟩ else none
      | _, _, _ => none
    else none
  | _ => none

/-! ## Data model (`data/models.py`)

Only the columns the sync pipeline reads or writes are modelled;
`created_at`, `tags`, `name`, `exchange`, notes and metrics play no role
in the claims under study. -/

/-- A row of the `tickers` table (the fields the poller consults). -/
structure Ticker where
  id : Nat
  symbol : String
  cik : Option String
deriving Repr, DecidableEq

/-- A persisted row of the `filings` table. -/
structure FilingRow where
  id : Nat
  ticker_id : Nat
  filing_id : String
  type : String
  title : Option String
  date : Date
  url : Option String
  source : String
  is_new : Bool
  hash : Option String
deriving Repr, DecidableEq

/-- A row of the `alerts` table.  `created_at` is an abstract timestamp. -/
structure AlertRow where
  id : Nat
  filing_id : Nat
  created_at : Nat
  read : Bool
deriving Repr, DecidableEq

/-- A transient `Filing` ORM object as constructed in `Poller._poll_sec`
before it is handed to `dao.upsert_filings`: no primary key and no owning
ticker yet. -/
structure FilingDraft where
  filing_id : String
  type : String
  title : Option String
  date : Date
  url : Option String
  source : String
  hash : Option String
deriving Repr, DecidableEq

/-- The database state shared by all store operations: the relevant
tables plus autoincrement counters for primary keys. -/
structure DB where
  tickers : List Ticker
  watchlist : List Nat
  filings : List FilingRow
  alerts : List AlertRow
  nextFilingId : Nat
  nextAlertId : Nat
deriving Repr, DecidableEq

/-- Decidable equality of fallible results (used only to evaluate the
concrete scenarios below). -/
instance {ε α : Type} [DecidableEq ε] [DecidableEq α] : DecidableEq (Except ε α)
  | .error a, .error b =>
    if h : a = b then .isTrue (h ▸ rfl) else .isFalse (fun hc => h (Except.error.inj hc))
  | .error _, .ok _ => .isFalse (fun hc => Except.noConfusion hc)
  | .ok _, .error _ => .isFalse (fun hc => Except.noConfusion hc)
  | .ok a, .ok b =>
    if h : a = b then .isTrue (h ▸ rfl) else .isFalse (fun hc => h (Except.ok.inj hc))

/-! ## Store operations (`data/dao.py`) -/

/-- The WHERE clause of the lookup in `upsert_filings`:
`Filing.source == filing.source, Filing.filing_id == filing.filing_id`. -/
def keyMatches (source fid : String) (f : FilingRow) : Bool :=
  f.source == source && f.filing_id == fid

/-- `(source, external id)` of a persisted filing — the dedupe key. -/
def rowKey (f : FilingRow) : String × String :=
  (f.source, f.filing_id)

/-- `(source, external id)` of an incoming draft. -/
def draftKey (r : FilingDraft) : String × String :=
  (r.source, r.filing_id)

/-- `existing.is_new = False` applied to the row the SELECT returned: the
first row matching the key (rows are returned in table order). -/
def clearIsNewFirst (source fid : String) : List FilingRow → List FilingRow
  | [] => []
  | f :: fs =>
    if keyMatches source fid f then { f with is_new := false } :: fs
    else f :: clearIsNewFirst source fid fs

/-- Loop state of one `upsert_filings` call: `updated` is the committed
table with this call's `is_new` mutations applied to the identity-mapped
row objects; `created` holds this call's pending INSERTs, which (because
the session has `autoflush=False`) later SELECTs of the same call do not
see. -/
structure UpsertState where
  updated : List FilingRow
  created : List FilingRow
  nextId : Nat
deriving Repr, DecidableEq

/-- One iteration of the `for filing in filings` loop in
`dao.upsert_filings`: look the key up; if found clear `is_new` on that
row, otherwise build a new row owned by `ticker` with `is_new = True` and
stage it for insertion.  The lookup runs over `st.updated`, whose key set
equals the committed table's (pending inserts live in `st.created` and
are invisible to the SELECT under `autoflush=False`). -/
def upsertStep (ticker : Ticker) (st : UpsertState) (rec : FilingDraft) : UpsertState :=
  if (st.updated.find? (keyMatches rec.source rec.filing_id)).isSome then
    { st with updated := clearIsNewFirst rec.source rec.filing_id st.updated }
  else
    let row : FilingRow :=
      { id := st.nextId, ticker_id := ticker.id, filing_id := rec.filing_id
        type := rec.type, title := rec.title, date := rec.date, url := rec.url
        source := rec.source, is_new := true, hash := rec.hash }
    { updated := st.updated, created := st.created ++ [row], nextId := st.nextId + 1 }

/-- `dao.upsert_filings(session, ticker, filings)`: process each record,
then `session.commit()` — the final table is the mutated committed rows
followed by the freshly inserted ones.  Returns the new database state
and the `created` list the Python function returns. -/
def upsert_filings (db : DB) (ticker : Ticker) (recs : List FilingDraft) :
    DB × List FilingRow :=
  let st := recs.foldl (upsertStep ticker)
    { updated := db.filings, created := [], nextId := db.nextFilingId }
  ({ db with filings := st.updated ++ st.created, nextFilingId := st.nextId }, st.created)

/-- `dao.add_alerts_for_filings(session, filings)`: one unread alert per
filing, all stamped with the same `utcnow()` value, then commit. -/
def add_alerts_for_filings (db : DB) (now : Nat) (filings : List FilingRow) :
    DB × List AlertRow :=
  let alerts := filings.enum.map (fun p =>
    { id := db.nextAlertId + p.1, filing_id := p.2.id, created_at := now, read := false : AlertRow })
  ({ db with alerts := db.alerts ++ alerts, nextAlertId := db.nextAlertId + filings.length },
   alerts)

/-- Insertion into a list sorted by `le` (used to model SQL `ORDER BY`). -/
def insertBy (le : α → α → Bool) (x : α) : List α → List α
  | [] => [x]
  | y :: ys => if le x y then x :: y :: ys else y :: insertBy le x ys

/-- Insertion sort by `le` (used to model SQL `ORDER BY`). -/
def sortBy (le : α → α → Bool) : List α → List α
  | [] => []
  | x :: xs => insertBy le x (sortBy le xs)

/-- `dao.list_watchlist(session)`: tickers joined with their watchlist
entry (at most one per ticker), ordered by symbol. -/
def list_watchlist (db : DB) : List Ticker :=
  sortBy (fun a b => strLe a.symbol b.symbol)
    (db.tickers.filter (fun t => db.watchlist.contains t.id))

/-- `dao._non_mock_clause()`: `Filing.hash IS NULL OR Filing.hash NOT LIKE
\x27mock%\x27` — the row passes unless its hash is non-null and starts
with `mock` up to ASCII case (SQLite's default `LIKE` is
case-insensitive for ASCII, and `db.py` hard-codes a SQLite engine, so
`MOCK...` and `Mock...` hashes are excluded too). -/
def non_mock_clause (f : FilingRow) : Bool :=
  match f.hash with
  | none => true
  | some h => !(strStartsWithCI h "mock")

/-- The `JOIN Ticker ON Filing.ticker_id == Ticker.id` used by the two
listing queries. -/
def joinTickers (db : DB) : List (FilingRow × Ticker) :=
  db.filings.flatMap (fun f =>
    (db.tickers.filter (fun t => t.id == f.ticker_id)).map (fun t => (f, t)))

/-- `ORDER BY Filing.date DESC, Filing.id DESC` as a boolean order on
joined rows. -/
def displayLe (a b : FilingRow × Ticker) : Bool :=
  let ka := a.1.date.year * 10000 + a.1.date.month * 100 + a.1.date.day
  let kb := b.1.date.year * 10000 + b.1.date.month * 100 + b.1.date.day
  decide (kb < ka) || (ka == kb && decide (b.1.id ≤ a.1.id))

/-- `dao.list_filings(session, limit)`: join with tickers, keep non-mock
rows, order by date then id descending, take `limit` rows. -/
def list_filings (db : DB) (limit : Nat) : List (FilingRow × Ticker) :=
  (sortBy displayLe ((joinTickers db).filter (fun p => non_mock_clause p.1))).take limit

/-- `dao.list_filings_for_symbols(session, symbols, limit)`: as
`list_filings` but restricted to the given symbols; an empty symbol list
short-circuits to `[]`. -/
def list_filings_for_symbols (db : DB) (symbols : List String) (limit : Nat) :
    List (FilingRow × Ticker) :=
  if symbols.isEmpty then []
  else
    (sortBy displayLe ((joinTickers db).filter
      (fun p => symbols.contains p.2.symbol && non_mock_clause p.1))).take limit

/-! ## SEC adapter parsing (`services/sec.py`) -/

/-- A `FilingMeta` dataclass as produced by `_parse_recent_filings`. -/
structure FilingMeta where
  filing_id : String
  ticker : String
  type : String
  title : Option String
  date : Date
  url : Option String
  source : String := "sec"
  hash : Option String := none
deriving Repr, DecidableEq

/-- The parallel arrays under the `filings.recent` key of the submissions
payload (`payload["filings"]["recent"]`); a missing key yields an empty
array. -/
structure RecentFilings where
  accessionNumber : List String
  form : List String
  filingDate : List String
  primaryDocument : List String
  primaryDocDescription : List String
deriving Repr, DecidableEq

def ARCHIVES_BASE : String := "https://www.sec.gov/Archives/edgar/data"

/-- The body of the `for i in range(max_rows)` loop of
`_parse_recent_filings` for one index `i`: `none` when the row is dropped
(missing accession number, missing date, or a date
`datetime.date.fromisoformat` rejects), otherwise the emitted
`FilingMeta`.  Rows past the end of a parallel array read as `""` for
`form`/`filingDate`/`primaryDocument` and as Python `None` for the
description. -/
def parseRow (r : RecentFilings) (ticker : String) (cikInt : Nat) (i : Nat) :
    Option FilingMeta :=
  let accession := r.accessionNumber.getD i ""
  let form := r.form.getD i ""
  let filingDateRaw := r.filingDate.getD i ""
  if accession == "" || filingDateRaw == "" then none
  else
    match parseISODate filingDateRaw with
    | none => none
    | some filingDate =>
      let accessionNoDashes := stripDashes accession
      let primaryDocument := r.primaryDocument.getD i ""
      let title0 : Option String :=
        if i < r.primaryDocDescription.length then some (r.primaryDocDescription.getD i "")
        else none
      let url := ARCHIVES_BASE ++ "/" ++ toString cikInt ++ "/" ++ accessionNoDashes
        ++ "/" ++ accession ++ "-index.html"
      let title : Option String :=
        if primaryDocument == "" && title0 == none then
          (if form == "" then none else some form)
        else title0
      some { filing_id := accession, ticker := ticker
             type := if form == "" then "UNKNOWN" else form
             title := title, date := filingDate, url := some url
             source := "sec", hash := none }

/-- `sec._parse_recent_filings(payload, ticker, cik_padded, limit)`:
iterate over the first `min(len(accessionNumber), limit)` rows, dropping
each invalid row individually and keeping the rest. -/
def parse_recent_filings (r : RecentFilings) (ticker : String) (cikInt : Nat)
    (limit : Nat) : List FilingMeta :=
  (List.range (min r.accessionNumber.length limit)).filterMap (parseRow r ticker cikInt)

/-! ## Poller (`services/poller.py`)

The network fetch (`SecAdapter.list_filings`, an HTTP round trip plus
`_parse_recent_filings`) is abstracted as a `FetchFn`: per ticker it
either raises a source error or yields the parsed `FilingMeta` list. -/

/-- The spec's source-error taxonomy for an adapter fetch: transport/5xx
failures and 4xx rejections.  In the code these are the `httpx` exceptions
escaping `SecAdapter._fetch_json`; `run_once` treats every such exception
the same way (it has no handler for either). -/
inductive SourceError where
  | sourceUnavailable
  | sourceRejected
deriving Repr, DecidableEq

/-- The outcome of `SecAdapter.list_filings` for one ticker. -/
abbrev FetchFn := Ticker → Except SourceError (List FilingMeta)

/-- Python truthiness of `ticker.cik` in `if self.sec and ticker.cik:`:
`None` and the empty string are falsy. -/
def cikTruthy : Option String → Bool
  | none => false
  | some s => !(s == "")

/-- The `Filing(...)` constructor call in `Poller._poll_sec`, copying the
meta fields into a transient ORM object. -/
def draftOfMeta (m : FilingMeta) : FilingDraft :=
  { filing_id := m.filing_id, type := m.type, title := m.title, date := m.date
    url := m.url, source := m.source, hash := m.hash }

/-- `Poller._poll_sec(ticker)`: fetch (exceptions propagate), build the
transient `Filing` objects, upsert them.  On success returns the updated
database and the inserted rows. -/
def poll_sec (fetch : FetchFn) (db : DB) (t : Ticker) :
    Except SourceError (DB × List FilingRow) :=
  match fetch t with
  | .error e => .error e
  | .ok metas => .ok (upsert_filings db t (metas.map draftOfMeta))

/-- The `for ticker in tickers` loop of `Poller.run_once`: sequentially
poll each ticker that has an adapter and a truthy cik, extending
`new_filings`; an exception from a fetch propagates immediately,
abandoning the rest of the list.  The first component is the database as
committed so far (earlier tickers' upserts have already committed). -/
def processTickers (fetch : FetchFn) (secEnabled : Bool) :
    List Ticker → DB → List FilingRow → DB × Except SourceError (List FilingRow)
  | [], db, acc => (db, .ok acc)
  | t :: ts, db, acc =>
    if secEnabled && cikTruthy t.cik then
      match poll_sec fetch db t with
      | .error e => (db, .error e)
      | .ok (db', created) => processTickers fetch secEnabled ts db' (acc ++ created)
    else processTickers fetch secEnabled ts db acc

/-- The symbol narrowing at the top of `Poller.run_once`: under
`if symbols:` a `None` or empty iterable leaves the watchlist untouched;
otherwise the watchlist is filtered to the stripped, upper-cased,
non-blank filter symbols. -/
def filterBySymbols (tickers : List Ticker) : Option (List String) → List Ticker
  | none => tickers
  | some [] => tickers
  | some syms =>
    let wanted := (syms.filter (fun s => !(pyStrip s == ""))).map (fun s => pyUpper (pyStrip s))
    tickers.filter (fun t => wanted.contains t.symbol)

/-- `Poller.run_once(symbols)`: resolve the watchlist, narrow it by the
optional filter, poll each candidate sequentially, and — only when
something was inserted — create the alerts in one follow-up store call.
Returns the database plus either the list of newly inserted filings (the
Python return value) or the uncaught source error. -/
def run_once (fetch : FetchFn) (secEnabled : Bool) (now : Nat) (db : DB)
    (symbols : Option (List String)) : DB × Except SourceError (List FilingRow) :=
  let tickers := filterBySymbols (list_watchlist db) symbols
  match processTickers fetch secEnabled tickers db [] with
  | (db', .error e) => (db', .error e)
  | (db', .ok newFilings) =>
    if newFilings.isEmpty then (db', .ok newFilings)
    else ((add_alerts_for_filings db' now newFilings).1, .ok newFilings)

/-! ## Session-level model of `upsert_filings` (for atomicity analysis)

`get_session` builds sessions with `autoflush=False, autocommit=False`:
inside `dao.upsert_filings` the object mutations (`existing.is_new =
False`) and `session.add(filing)` calls accumulate as *pending* work that
only `session.commit()` at the end of the call persists.  The function
body contains no `try`/`except` and no `session.rollback()`.  To reason
about a store failure in the middle of the batch we refine the `DB`-level
model with an explicit pending list. -/

/-- A unit of pending (uncommitted) session work produced by
`upsert_filings`. -/
inductive Mutation where
  | clearNew (source filing_id : String)
  | insertRow (row : FilingRow)
deriving Repr, DecidableEq

/-- Flushing one pending unit of work into the committed table. -/
def applyMutation (rows : List FilingRow) : Mutation → List FilingRow
  | .clearNew s fid => clearIsNewFirst s fid rows
  | .insertRow r => rows ++ [r]

/-- A SQLAlchemy session over the filings table: the committed rows plus
the pending (applied-but-uncommitted) mutations. -/
structure Sess where
  committed : List FilingRow
  pending : List Mutation
  nextId : Nat
deriving Repr, DecidableEq

/-- `session.commit()`: flush every pending mutation into the committed
state. -/
def sessCommit (s : Sess) : Sess :=
  { committed := s.pending.foldl applyMutation s.committed, pending := [], nextId := s.nextId }

/-- The `upsert_filings` loop over the session model, with the store
becoming unavailable at the SELECT for record number `k` (0-based): the
first `k` records are processed normally into pending mutations (the
SELECTs see only committed rows, `autoflush` being off), then the
exception propagates with the session exactly as it stands — the function
has no rollback handler. -/
def upsertFilingsSessGo (ticker : Ticker) : Nat → List FilingDraft → Sess → Except Sess Sess
  | _, [], s => .ok s
  | 0, _ :: _, s => .error s
  | k + 1, rec :: recs, s =>
    let s' :=
      if (s.committed.find? (keyMatches rec.source rec.filing_id)).isSome then
        { s with pending := s.pending ++ [.clearNew rec.source rec.filing_id] }
      else
        let row : FilingRow :=
          { id := s.nextId, ticker_id := ticker.id, filing_id := rec.filing_id
            type := rec.type, title := rec.title, date := rec.date, url := rec.url
            source := rec.source, is_new := true, hash := rec.hash }
        { s with pending := s.pending ++ [.insertRow row], nextId := s.nextId + 1 }
    upsertFilingsSessGo ticker k recs s'

/-- `dao.upsert_filings` over the session model with a store failure
injected at record `k`: on survival (`k ≥ |recs|`) the call ends with
`session.commit()`; on failure the exception surfaces carrying the
session state unchanged by any rollback. -/
def upsertFilingsFailAt (ticker : Ticker) (recs : List FilingDraft) (k : Nat)
    (s : Sess) : Except Sess Sess :=
  match upsertFilingsSessGo ticker k recs s with
  | .error s' => .error s'
  | .ok s' => .ok (sessCommit s')

/-! ## Concrete scenarios

Closed inputs used by the counterexamples and witnesses below. -/

/-- Watched ticker `AAA` with a resolvable cik. -/
def tkA : Ticker := { id := 1, symbol := "AAA", cik := some "111" }

/-- Watched ticker `BBB` with a resolvable cik. -/
def tkB : Ticker := { id := 2, symbol := "BBB", cik := some "222" }

/-- Watched ticker `CCC` with a resolvable cik. -/
def tkC : Ticker := { id := 3, symbol := "CCC", cik := some "333" }

/-- A ticker with no external identifier (`cik` is `None`). -/
def tkNoCik : Ticker := { id := 4, symbol := "DDD", cik := none }

/-- Fresh database: three watched tickers, no filings, no alerts. -/
def db0 : DB :=
  { tickers := [tkA, tkB, tkC], watchlist := [1, 2, 3], filings := [], alerts := []
    nextFilingId := 0, nextAlertId := 0 }

/-- A parsed filing record with the given accession number. -/
def metaFor (fid : String) : FilingMeta :=
  { filing_id := fid, ticker := "X", type := "10-K", title := some "t"
    date := ⟨2024, 1, 10⟩, url := none, source := "sec", hash := none }

/-- Adapter behaviour where the second ticker's fetch raises
`SourceUnavailable` while the first and third succeed. -/
def fetch3 : FetchFn := fun t =>
  if t.id == 2 then .error .sourceUnavailable
  else if t.id == 1 then .ok [metaFor "acc-1"]
  else .ok [metaFor "acc-3"]

/-- Adapter behaviour where every fetch succeeds with one fresh filing. -/
def fetchOk : FetchFn := fun t =>
  if t.id == 1 then .ok [metaFor "acc-1"]
  else if t.id == 2 then .ok [metaFor "acc-2"]
  else .ok [metaFor "acc-3"]

/-- A transient filing record `acc-1`. -/
def draft1 : FilingDraft :=
  { filing_id := "acc-1", type := "10-K", title := some "t", date := ⟨2024, 1, 10⟩
    url := none, source := "sec", hash := none }

/-- A transient filing record `acc-2`. -/
def draft2 : FilingDraft :=
  { filing_id := "acc-2", type := "10-Q", title := none, date := ⟨2024, 1, 5⟩
    url := none, source := "sec", hash := none }

/-- The empty session. -/
def sess0 : Sess := { committed := [], pending := [], nextId := 0 }

/-- The row that inserting `draft1` for ticker `AAA` into the empty
session stages. -/
def rowOfDraft1 : FilingRow :=
  { id := 0, ticker_id := 1, filing_id := "acc-1", type := "10-K", title := some "t"
    date := ⟨2024, 1, 10⟩, url := none, source := "sec", is_new := true, hash := none }

/-- The session state as the injected store failure surfaces from
`upsertFilingsFailAt tkA [draft1, draft2] 1 sess0`: the first record's
insert is still pending. -/
def sessAfterFail : Sess :=
  { committed := [], pending := [Mutation.insertRow rowOfDraft1], nextId := 1 }

/-- Raw batch of five records whose third has an unparseable date. -/
def batch5 : RecentFilings :=
  { accessionNumber := ["a-1", "a-2", "a-3", "a-4", "a-5"]
    form := ["10-K", "10-Q", "8-K", "10-K", "10-Q"]
    filingDate := ["2024-01-01", "2024-01-02", "bad-date", "2024-01-04", "2024-01-05"]
    primaryDocument := []
    primaryDocDescription := [] }

/-- A raw record whose optional title (primary document description) is
missing while a primary document is present and the form is `10-K`. -/
def c7recent : RecentFilings :=
  { accessionNumber := ["acc-1"], form := ["10-K"], filingDate := ["2024-01-10"]
    primaryDocument := ["doc.htm"], primaryDocDescription := [] }

/-- A persisted filing whose hash starts with `mock`. -/
def mockRow : FilingRow :=
  { id := 10, ticker_id := 1, filing_id := "m-1", type := "10-K", title := none
    date := ⟨2024, 1, 1⟩, url := none, source := "sec", is_new := false
    hash := some "mock123" }

/-- A persisted filing with a null hash. -/
def realRow : FilingRow :=
  { id := 11, ticker_id := 1, filing_id := "r-1", type := "10-K", title := none
    date := ⟨2024, 1, 2⟩, url := none, source := "sec", is_new := false, hash := none }

/-- Database holding one mock-hash filing and one null-hash filing. -/
def db9 : DB := { db0 with filings := [mockRow, realRow] }

/-- A persisted filing whose hash starts with upper-case `MOCK` — it does
*not* begin with the literal lower-case `mock`. -/
def upperMockRow : FilingRow :=
  { id := 12, ticker_id := 1, filing_id := "M-1", type := "10-K", title := none
    date := ⟨2024, 1, 4⟩, url := none, source := "sec", is_new := false
    hash := some "MOCK123" }

/-- Database holding the upper-case-mock-hash filing and a null-hash
filing. -/
def db9u : DB := { db0 with filings := [upperMockRow, realRow] }

/-- A persisted filing for the frame-condition scenario. -/
def row0 : FilingRow :=
  { id := 5, ticker_id := 1, filing_id := "acc-9", type := "10-K", title := some "old"
    date := ⟨2023, 12, 1⟩, url := some "u-old", source := "sec", is_new := true
    hash := some "h-old" }

/-- Database holding `row0`. -/
def dbF : DB := { db0 with filings := [row0] }

/-- An incoming record with `row0`'s key but different title, url, date,
type and hash. -/
def draft9 : FilingDraft :=
  { filing_id := "acc-9", type := "8-K", title := some "new", date := ⟨2024, 2, 2⟩
    url := some "u-new", source := "sec", hash := some "h-new" }

/-- An incoming record carrying a `mock`-prefixed hash. -/
def mockDraft : FilingDraft :=
  { filing_id := "m-9", type := "10-K", title := none, date := ⟨2024, 1, 3⟩
    url := none, source := "sec", hash := some "mock123" }

/-- The three rows a fully successful `run_once` over `db0` with
`fetchOk` inserts. -/
def rows3 : List FilingRow :=
  [{ id := 0, ticker_id := 1, filing_id := "acc-1", type := "10-K", title := some "t"
     date := ⟨2024, 1, 10⟩, url := none, source := "sec", is_new := true, hash := none },
   { id := 1, ticker_id := 2, filing_id := "acc-2", type := "10-K", title := some "t"
     date := ⟨2024, 1, 10⟩, url := none, source := "sec", is_new := true, hash := none },
   { id := 2, ticker_id := 3, filing_id := "acc-3", type := "10-K", title := some "t"
     date := ⟨2024, 1, 10⟩, url := none, source := "sec", is_new := true, hash := none }]

/-- The database state after that successful run: the three rows
persisted and one unread alert per row. -/
def dbAfterOk : DB :=
  { tickers := [tkA, tkB, tkC], watchlist := [1, 2, 3], filings := rows3
    alerts := [{ id := 0, filing_id := 0, created_at := 7, read := false },
               { id := 1, filing_id := 1, created_at := 7, read := false },
               { id := 2, filing_id := 2, created_at := 7, read := false }]
    nextFilingId := 3, nextAlertId := 3 }

/-- The dedupe keys visible in an `upsert_filings` loop state: keys of the
(mutated) committed rows followed by keys of the pending inserts. -/
def keysOf (st : UpsertState) : List (String × String) :=
  st.updated.map rowKey ++ st.created.map rowKey

/-! ## Helper lemmas -/

theorem keyMatches_iff {s fid : String} {f : FilingRow} :
    keyMatches s fid f = true ↔ rowKey f = (s, fid) := by
  simp [keyMatches, rowKey, Prod.ext_iff, Bool.and_eq_true, beq_iff_eq]

theorem clearIsNewFirst_length (s fid : String) (l : List FilingRow) :
    (clearIsNewFirst s fid l).length = l.length := by
  induction l with
  | nil => rfl
  | cons f fs ih =>
    by_cases h : keyMatches s fid f = true <;>
      simp [clearIsNewFirst, h, ih]

theorem clearIsNewFirst_map_rowKey (s fid : String) (l : List FilingRow) :
    (clearIsNewFirst s fid l).map rowKey = l.map rowKey := by
  induction l with
  | nil => rfl
  | cons f fs ih =>
    by_cases h : keyMatches s fid f = true <;>
      simp [clearIsNewFirst, h, ih, rowKey]

theorem mem_clearIsNewFirst_of_cleared {x : FilingRow} {l : List FilingRow}
    (hx : x ∈ l) (hnew : x.is_new = false) (s fid : String) :
    x ∈ clearIsNewFirst s fid l := by
  induction l with
  | nil => cases hx
  | cons f fs ih =>
    by_cases h : keyMatches s fid f = true
    · rcases List.mem_cons.mp hx with rfl | hx'
      · simp only [clearIsNewFirst, h, if_pos]
        have : { x with is_new := false } = x := by
          cases x; simp_all
        simp [this]
      · simp [clearIsNewFirst, h, hx']
    · rcases List.mem_cons.mp hx with rfl | hx'
      · simp [clearIsNewFirst, h]
      · simp [clearIsNewFirst, h, ih hx']

theorem mem_clearIsNewFirst_of_notKey {x : FilingRow} {l : List FilingRow}
    {s fid : String} (hk : ¬ keyMatches s fid x = true) (hx : x ∈ l) :
    x ∈ clearIsNewFirst s fid l := by
  induction l with
  | nil => cases hx
  | cons f fs ih =>
    rcases List.mem_cons.mp hx with rfl | hx'
    · simp [clearIsNewFirst, hk]
    · by_cases h : keyMatches s fid f = true
      · simp only [clearIsNewFirst, h, if_pos, List.mem_cons]
        exact Or.inr hx'
      · simp [clearIsNewFirst, h, ih hx']

theorem clearIsNewFirst_frame {x : FilingRow} {l : List FilingRow}
    (hx : x ∈ l) (s fid : String) :
    x ∈ clearIsNewFirst s fid l ∨ { x with is_new := false } ∈ clearIsNewFirst s fid l := by
  induction l with
  | nil => cases hx
  | cons f fs ih =>
    by_cases h : keyMatches s fid f = true
    · rcases List.mem_cons.mp hx with rfl | hx'
      · right; simp [clearIsNewFirst, h]
      · left; simp [clearIsNewFirst, h, hx']
    · rcases List.mem_cons.mp hx with rfl | hx'
      · left; simp [clearIsNewFirst, h]
      · rcases ih hx' with h' | h'
        · left; simp [clearIsNewFirst, h, h']
        · right; simp [clearIsNewFirst, h, h']

theorem clearIsNewFirst_hit {x : FilingRow} {l : List FilingRow} {s fid : String}
    (hnd : (l.map rowKey).Nodup) (hx : x ∈ l) (hk : keyMatches s fid x = true) :
    { x with is_new := false } ∈ clearIsNewFirst s fid l := by
  induction l with
  | nil => cases hx
  | cons f fs ih =>
    by_cases h : keyMatches s fid f = true
    · rcases List.mem_cons.mp hx with rfl | hx'
      · simp [clearIsNewFirst, h]
      · exfalso
        have hks : rowKey x = (s, fid) := keyMatches_iff.mp hk
        have hkf : rowKey f = (s, fid) := keyMatches_iff.mp h
        have : rowKey f ∈ fs.map rowKey := by
          rw [hkf, ← hks]; exact List.mem_map_of_mem rowKey hx'
        exact (List.nodup_cons.mp (by simpa using hnd)).1 this
    · rcases List.mem_cons.mp hx with rfl | hx'
      · exact absurd hk h
      · have hnd' : (fs.map rowKey).Nodup := (List.nodup_cons.mp (by simpa using hnd)).2
        simp [clearIsNewFirst, h, ih hnd' hx']

theorem find?_isSome_of_key {l : List FilingRow} {k : String × String}
    (h : k ∈ l.map rowKey) : (l.find? (keyMatches k.1 k.2)).isSome := by
  rcases List.mem_map.mp h with ⟨f, hf, hk⟩
  exact List.find?_isSome.mpr ⟨f, hf, keyMatches_iff.mpr (by simpa using hk)⟩

theorem upsertStep_updated_length (t : Ticker) (st : UpsertState) (rec : FilingDraft) :
    (upsertStep t st rec).updated.length = st.updated.length := by
  by_cases h : (st.updated.find? (keyMatches rec.source rec.filing_id)).isSome <;>
    simp [upsertStep, h, clearIsNewFirst_length]

theorem upsertStep_updated_keys (t : Ticker) (st : UpsertState) (rec : FilingDraft) :
    (upsertStep t st rec).updated.map rowKey = st.updated.map rowKey := by
  by_cases h : (st.updated.find? (keyMatches rec.source rec.filing_id)).isSome <;>
    simp [upsertStep, h, clearIsNewFirst_map_rowKey]

theorem upsertStep_keysOf_mono (t : Ticker) (st : UpsertState) (rec : FilingDraft)
    {k : String × String} (hk : k ∈ keysOf st) : k ∈ keysOf (upsertStep t st rec) := by
  by_cases h : (st.updated.find? (keyMatches rec.source rec.filing_id)).isSome
  · simpa [upsertStep, h, keysOf, clearIsNewFirst_map_rowKey] using hk
  · rcases List.mem_append.mp hk with h' | h'
    · exact List.mem_append.mpr (Or.inl (by simpa [upsertStep, h, keysOf] using h'))
    · refine List.mem_append.mpr (Or.inr ?_)
      simp only [upsertStep, h, if_neg, Bool.not_eq_true, keysOf, List.map_append]
      exact List.mem_append.mpr (Or.inl h')

theorem upsertStep_key_present (t : Ticker) (st : UpsertState) (rec : FilingDraft) :
    draftKey rec ∈ keysOf (upsertStep t st rec) := by
  by_cases h : (st.updated.find? (keyMatches rec.source rec.filing_id)).isSome
  · rcases List.find?_isSome.mp h with ⟨f, hf, hkf⟩
    have : rowKey f = draftKey rec := keyMatches_iff.mp hkf
    refine List.mem_append.mpr (Or.inl ?_)
    simp only [upsertStep, h, if_pos, clearIsNewFirst_map_rowKey]
    exact this ▸ List.mem_map_of_mem rowKey hf
  · refine List.mem_append.mpr (Or.inr ?_)
    simp [upsertStep, h, draftKey, rowKey]

theorem foldl_upsertStep_updated_length (t : Ticker) (recs : List FilingDraft)
    (st : UpsertState) :
    (recs.foldl (upsertStep t) st).updated.length = st.updated.length := by
  induction recs generalizing st with
  | nil => rfl
  | cons rec recs ih => rw [List.foldl_cons, ih, upsertStep_updated_length]

theorem foldl_upsertStep_updated_keys (t : Ticker) (recs : List FilingDraft)
    (st : UpsertState) :
    (recs.foldl (upsertStep t) st).updated.map rowKey = st.updated.map rowKey := by
  induction recs generalizing st with
  | nil => rfl
  | cons rec recs ih => rw [List.foldl_cons, ih, upsertStep_updated_keys]

theorem foldl_upsertStep_keysOf_mono (t : Ticker) (recs : List FilingDraft)
    (st : UpsertState) {k : String × String} (hk : k ∈ keysOf st) :
    k ∈ keysOf (recs.foldl (upsertStep t) st) := by
  induction recs generalizing st with
  | nil => exact hk
  | cons rec recs ih => exact ih _ (upsertStep_keysOf_mono t st rec hk)

theorem foldl_upsertStep_key_present (t : Ticker) (recs : List FilingDraft)
    (st : UpsertState) {r : FilingDraft} (hr : r ∈ recs) :
    draftKey r ∈ keysOf (recs.foldl (upsertStep t) st) := by
  induction recs generalizing st with
  | nil => cases hr
  | cons rec recs ih =>
    rcases List.mem_cons.mp hr with rfl | hr'
    · exact foldl_upsertStep_keysOf_mono t recs _ (upsertStep_key_present t st r)
    · exact ih (upsertStep t st rec) hr'

theorem foldl_upsertStep_all_found (t : Ticker) (recs : List FilingDraft)
    (st : UpsertState) (h : ∀ r ∈ recs, draftKey r ∈ st.updated.map rowKey) :
    (recs.foldl (upsertStep t) st).created = st.created := by
  induction recs generalizing st with
  | nil => rfl
  | cons rec recs ih =>
    have hfound : (st.updated.find? (keyMatches rec.source rec.filing_id)).isSome :=
      find?_isSome_of_key (h rec (List.mem_cons_self rec recs))
    rw [List.foldl_cons]
    have hstep : upsertStep t st rec =
        { st with updated := clearIsNewFirst rec.source rec.filing_id st.updated } := by
      simp [upsertStep, hfound]
    rw [hstep, ih]
    intro r hr
    simpa [clearIsNewFirst_map_rowKey] using h r (List.mem_cons_of_mem rec hr)

theorem foldl_upsertStep_keep_cleared (t : Ticker) (recs : List FilingDraft)
    (st : UpsertState) {x : FilingRow} (hx : x ∈ st.updated) (hnew : x.is_new = false) :
    x ∈ (recs.foldl (upsertStep t) st).updated := by
  induction recs generalizing st with
  | nil => exact hx
  | cons rec recs ih =>
    refine ih (upsertStep t st rec) ?_
    by_cases h : (st.updated.find? (keyMatches rec.source rec.filing_id)).isSome
    · simp only [upsertStep, h, if_pos]
      exact mem_clearIsNewFirst_of_cleared hx hnew _ _
    · simpa [upsertStep, h] using hx

theorem foldl_upsertStep_frame (t : Ticker) (recs : List FilingDraft)
    (st : UpsertState) {x : FilingRow}
    (hx : x ∈ st.updated ∨ { x with is_new := false } ∈ st.updated) :
    x ∈ (recs.foldl (upsertStep t) st).updated ∨
      { x with is_new := false } ∈ (recs.foldl (upsertStep t) st).updated := by
  induction recs generalizing st with
  | nil => exact hx
  | cons rec recs ih =>
    refine ih (upsertStep t st rec) ?_
    by_cases h : (st.updated.find? (keyMatches rec.source rec.filing_id)).isSome
    · simp only [upsertStep, h, if_pos]
      rcases hx with hx | hx
      · exact clearIsNewFirst_frame hx _ _
      · exact Or.inr (mem_clearIsNewFirst_of_cleared hx rfl _ _)
    · simpa [upsertStep, h] using hx

theorem foldl_upsertStep_hit (t : Ticker) (recs : List FilingDraft)
    (st : UpsertState) {x : FilingRow}
    (hnd : (st.updated.map rowKey).Nodup)
    (hx : x ∈ st.updated ∨ { x with is_new := false } ∈ st.updated)
    (hr : ∃ r ∈ recs, draftKey r = rowKey x) :
    { x with is_new := false } ∈ (recs.foldl (upsertStep t) st).updated := by
  induction recs generalizing st with
  | nil => rcases hr with ⟨r, hr, _⟩; cases hr
  | cons rec recs ih =>
    by_cases hkey : draftKey rec = rowKey x
    · have hfound : (st.updated.find? (keyMatches rec.source rec.filing_id)).isSome := by
        refine find?_isSome_of_key (k := draftKey rec) ?_
        rw [hkey]
        rcases hx with hx | hx
        · exact List.mem_map_of_mem rowKey hx
        · have : rowKey { x with is_new := false } = rowKey x := rfl
          exact this ▸ List.mem_map_of_mem rowKey hx
      have hstep : upsertStep t st rec =
          { st with updated := clearIsNewFirst rec.source rec.filing_id st.updated } := by
        simp [upsertStep, hfound]
      have hmem : { x with is_new := false } ∈
          clearIsNewFirst rec.source rec.filing_id st.updated := by
        have hkm : ∀ y : FilingRow, rowKey y = rowKey x →
            keyMatches rec.source rec.filing_id y = true := by
          intro y hy
          exact keyMatches_iff.mpr (by rw [hy, ← hkey]; rfl)
        rcases hx with hx | hx
        · exact clearIsNewFirst_hit hnd hx (hkm x rfl)
        · have := clearIsNewFirst_hit hnd hx (hkm { x with is_new := false } rfl)
          simpa using this
      rw [List.foldl_cons, hstep]
      exact foldl_upsertStep_keep_cleared t recs _ hmem rfl
    · rcases hr with ⟨r, hrmem, hrk⟩
      rcases List.mem_cons.mp hrmem with rfl | hrmem'
      · exact absurd hrk hkey
      refine ih (upsertStep t st rec) ?_ ?_ ⟨r, hrmem', hrk⟩
      · rw [upsertStep_updated_keys]; exact hnd
      · by_cases h : (st.updated.find? (keyMatches rec.source rec.filing_id)).isSome
        · simp only [upsertStep, h, if_pos]
          have hnk : ∀ y : FilingRow, rowKey y = rowKey x →
              ¬ keyMatches rec.source rec.filing_id y = true := by
            intro y hy hk
            exact hkey (by rw [← hy, keyMatches_iff.mp hk]; rfl)
          rcases hx with hx | hx
          · exact Or.inl (mem_clearIsNewFirst_of_notKey (hnk x rfl) hx)
          · exact Or.inr (mem_clearIsNewFirst_of_notKey (hnk _ rfl) hx)
        · simpa [upsertStep, h] using hx

theorem mem_insertBy {le : α → α → Bool} {x a : α} {l : List α} :
    a ∈ insertBy le x l ↔ a = x ∨ a ∈ l := by
  induction l with
  | nil => simp [insertBy]
  | cons y ys ih =>
    by_cases h : le x y = true
    · simp [insertBy, h]
    · simp only [insertBy, h, if_false, Bool.false_eq_true, List.mem_cons, ih]
      tauto

theorem mem_sortBy {le : α → α → Bool} {a : α} {l : List α} :
    a ∈ sortBy le l ↔ a ∈ l := by
  induction l with
  | nil => simp [sortBy]
  | cons y ys ih => simp [sortBy, mem_insertBy, ih]

theorem length_insertBy (le : α → α → Bool) (x : α) (l : List α) :
    (insertBy le x l).length = l.length + 1 := by
  induction l with
  | nil => rfl
  | cons y ys ih =>
    by_cases h : le x y = true
    · simp [insertBy, h]
    · simp only [insertBy, h, if_false, Bool.false_eq_true, List.length_cons, ih]

theorem length_sortBy (le : α → α → Bool) (l : List α) :
    (sortBy le l).length = l.length := by
  induction l with
  | nil => rfl
  | cons y ys ih => simp [sortBy, length_insertBy, ih]

theorem length_filterMap_isSome (f : α → Option β) (l : List α) :
    (l.filterMap f).length = (l.filter (fun a => (f a).isSome)).length := by
  induction l with
  | nil => rfl
  | cons x xs ih =>
    cases hx : f x <;> simp [List.filterMap_cons, List.filter_cons, hx, ih]

theorem upsert_filings_alerts (db : DB) (t : Ticker) (recs : List FilingDraft) :
    (upsert_filings db t recs).1.alerts = db.alerts := rfl

theorem upsert_filings_length (db : DB) (t : Ticker) (recs : List FilingDraft) :
    (upsert_filings db t recs).1.filings.length =
      db.filings.length + (upsert_filings db t recs).2.length := by
  simp [upsert_filings, foldl_upsertStep_updated_length]

theorem poll_sec_alerts {fetch : FetchFn} {db db' : DB} {t : Ticker}
    {created : List FilingRow} (h : poll_sec fetch db t = .ok (db', created)) :
    db'.alerts = db.alerts := by
  unfold poll_sec at h
  cases hf : fetch t with
  | error e => rw [hf] at h; cases h
  | ok metas =>
    rw [hf] at h
    cases h
    exact upsert_filings_alerts db t _

theorem processTickers_fst_acc_irrel (fetch : FetchFn) (secE : Bool)
    (ts : List Ticker) : ∀ db acc acc',
    (processTickers fetch secE ts db acc).1 = (processTickers fetch secE ts db acc').1 := by
  induction ts with
  | nil => intro db acc acc'; rfl
  | cons t ts ih =>
    intro db acc acc'
    by_cases h : (secE && cikTruthy t.cik) = true
    · simp only [processTickers, h, if_pos]
      cases hp : poll_sec fetch db t with
      | error e => rfl
      | ok p => exact ih p.1 (acc ++ p.2) (acc' ++ p.2)
    · simp only [processTickers, h]
      simp only [Bool.false_eq_true, if_false]
      exact ih db acc acc'

theorem processTickers_alerts (fetch : FetchFn) (secE : Bool) (ts : List Ticker) :
    ∀ db acc, (processTickers fetch secE ts db acc).1.alerts = db.alerts := by
  induction ts with
  | nil => intro db acc; rfl
  | cons t ts ih =>
    intro db acc
    by_cases h : (secE && cikTruthy t.cik) = true
    · simp only [processTickers, h, if_pos]
      cases hp : poll_sec fetch db t with
      | error e => rfl
      | ok p => rw [ih p.1 (acc ++ p.2), poll_sec_alerts (by rw [hp])]
    · simp only [processTickers, h]
      simp only [Bool.false_eq_true, if_false]
      exact ih db acc

theorem processTickers_filings_length (fetch : FetchFn) (secE : Bool)
    (ts : List Ticker) : ∀ db acc db' acc',
    processTickers fetch secE ts db acc = (db', .ok acc') →
    db'.filings.length + acc.length = db.filings.length + acc'.length := by
  induction ts with
  | nil =>
    intro db acc db' acc' h
    simp only [processTickers] at h
    cases h
    omega
  | cons t ts ih =>
    intro db acc db' acc' h
    by_cases hc : (secE && cikTruthy t.cik) = true
    · simp only [processTickers, hc, if_pos] at h
      cases hp : poll_sec fetch db t with
      | error e => rw [hp] at h; cases h
      | ok p =>
        rw [hp] at h
        have hlen := ih p.1 (acc ++ p.2) db' acc' h
        unfold poll_sec at hp
        cases hf : fetch t with
        | error e => rw [hf] at hp; cases hp
        | ok metas =>
          rw [hf] at hp
          cases hp
          have := upsert_filings_length db t (metas.map draftOfMeta)
          simp only [List.length_append] at hlen
          omega
    · simp only [processTickers, hc] at h
      simp only [Bool.false_eq_true, if_false] at h
      exact ih db acc db' acc' h

theorem add_alerts_length (db : DB) (now : Nat) (fs : List FilingRow) :
    (add_alerts_for_filings db now fs).2.length = fs.length := by
  simp [add_alerts_for_filings, List.enum_length]

theorem add_alerts_filing_ids (db : DB) (now : Nat) (fs : List FilingRow) :
    (add_alerts_for_filings db now fs).2.map (fun a => a.filing_id) =
      fs.map (fun f => f.id) := by
  simp only [add_alerts_for_filings, List.map_map]
  have : ((fun a : AlertRow => a.filing_id) ∘
      (fun p : Nat × FilingRow =>
        ({ id := db.nextAlertId + p.1, filing_id := p.2.id, created_at := now,
           read := false : AlertRow }))) =
      (fun f : FilingRow => f.id) ∘ Prod.snd := rfl
  rw [this, ← List.map_map, List.enum_map_snd]

theorem add_alerts_alerts_eq (db : DB) (now : Nat) (fs : List FilingRow) :
    (add_alerts_for_filings db now fs).1.alerts =
      db.alerts ++ (add_alerts_for_filings db now fs).2 := rfl

theorem add_alerts_filings_eq (db : DB) (now : Nat) (fs : List FilingRow) :
    (add_alerts_for_filings db now fs).1.filings = db.filings := rfl

theorem processTickers_cons_skip {fetch : FetchFn} {secE : Bool} {t : Ticker}
    {ts : List Ticker} {db : DB} {acc : List FilingRow}
    (h : (secE && cikTruthy t.cik) = false) :
    processTickers fetch secE (t :: ts) db acc = processTickers fetch secE ts db acc := by
  simp [processTickers, h]

theorem processTickers_cons_error {fetch : FetchFn} {secE : Bool} {t : Ticker}
    {ts : List Ticker} {db : DB} {acc : List FilingRow} {e : SourceError}
    (hsec : (secE && cikTruthy t.cik) = true) (hf : fetch t = .error e) :
    processTickers fetch secE (t :: ts) db acc = (db, .error e) := by
  simp [processTickers, hsec, poll_sec, hf]

theorem processTickers_cons_ok {fetch : FetchFn} {secE : Bool} {t : Ticker}
    {ts : List Ticker} {db : DB} {acc : List FilingRow} {metas : List FilingMeta}
    (hsec : (secE && cikTruthy t.cik) = true) (hf : fetch t = .ok metas) :
    processTickers fetch secE (t :: ts) db acc =
      processTickers fetch secE ts (upsert_filings db t (metas.map draftOfMeta)).1
        (acc ++ (upsert_filings db t (metas.map draftOfMeta)).2) := by
  simp [processTickers, hsec, poll_sec, hf]

theorem run_once_of_error {fetch : FetchFn} {secE : Bool} {now : Nat} {db dbp : DB}
    {syms : Option (List String)} {e : SourceError}
    (hp : processTickers fetch secE (filterBySymbols (list_watchlist db) syms) db []
      = (dbp, .error e)) :
    run_once fetch secE now db syms = (dbp, .error e) := by
  unfold run_once
  dsimp only
  rw [hp]

theorem run_once_of_ok {fetch : FetchFn} {secE : Bool} {now : Nat} {db dbp : DB}
    {syms : Option (List String)} {acc : List FilingRow}
    (hp : processTickers fetch secE (filterBySymbols (list_watchlist db) syms) db []
      = (dbp, .ok acc)) :
    run_once fetch secE now db syms =
      (if acc.isEmpty then dbp else (add_alerts_for_filings dbp now acc).1, .ok acc) := by
  unfold run_once
  dsimp only
  rw [hp]
  by_cases h : acc.isEmpty <;> simp [h]

/-! ## Claims -/

/-- C3.  `upsert_filings` is idempotent: for every ticker and every record
set (whose dedupe keys are pairwise distinct, as the unique
`(source, filing_id)` constraint demands of a committable batch), calling
it a second time with the identical record set leaves the persisted
filing row count unchanged and returns an empty `created` list — the
re-sight never creates a duplicate row for an already-seen
`(source, external_id)`. -/
theorem upsert_filings_idempotent (db : DB) (t : Ticker) (recs : List FilingDraft)
    (hnd : (recs.map draftKey).Nodup) :
    (upsert_filings (upsert_filings db t recs).1 t recs).2 = [] ∧
    (upsert_filings (upsert_filings db t recs).1 t recs).1.filings.length
      = (upsert_filings db t recs).1.filings.length := by
  have hkeys : ∀ r ∈ recs, draftKey r ∈ (upsert_filings db t recs).1.filings.map rowKey := by
    intro r hr
    have h := foldl_upsertStep_key_present t recs
      { updated := db.filings, created := [], nextId := db.nextFilingId } hr
    simpa [upsert_filings, keysOf] using h
  have hfound := foldl_upsertStep_all_found t recs
    { updated := (upsert_filings db t recs).1.filings, created := []
      nextId := (upsert_filings db t recs).1.nextFilingId }
    (by intro r hr; simpa using hkeys r hr)
  have h1 : (upsert_filings (upsert_filings db t recs).1 t recs).2 = [] := by
    simpa [upsert_filings] using hfound
  refine ⟨h1, ?_⟩
  rw [upsert_filings_length (upsert_filings db t recs).1 t recs, h1]
  simp

/-- Witness for `upsert_filings_idempotent` at a concrete input: two
fresh records upserted into the fresh database, then upserted again. -/
theorem upsert_filings_idempotent_witness :
    ([draft1, draft2].map draftKey).Nodup ∧
    (upsert_filings (upsert_filings db0 tkA [draft1, draft2]).1 tkA [draft1, draft2]).2 = [] ∧
    (upsert_filings (upsert_filings db0 tkA [draft1, draft2]).1 tkA [draft1, draft2]).1.filings.length
      = (upsert_filings db0 tkA [draft1, draft2]).1.filings.length :=
  ⟨by decide,
   (upsert_filings_idempotent db0 tkA [draft1, draft2] (by decide)).1,
   (upsert_filings_idempotent db0 tkA [draft1, draft2] (by decide)).2⟩

/-- C10.  Frame condition of `upsert_filings` on existing rows: every row
persisted before the call survives the call either unchanged or with only
its `is_new` flag cleared — `title`, `url`, `date`, `type`, `hash`,
`source`, `filing_id` and the owning `ticker_id` are never modified, even
when the incoming record carries different values.  Moreover, when the
table's dedupe keys are unique and some incoming record matches the row's
`(source, external_id)`, the row ends with `is_new = false` and all other
fields intact. -/
theorem upsert_filings_existing_row_frame (db : DB) (t : Ticker)
    (recs : List FilingDraft) (f : FilingRow) (hf : f ∈ db.filings) :
    (f ∈ (upsert_filings db t recs).1.filings ∨
      { f with is_new := false } ∈ (upsert_filings db t recs).1.filings) ∧
    ((db.filings.map rowKey).Nodup → (∃ r ∈ recs, draftKey r = rowKey f) →
      { f with is_new := false } ∈ (upsert_filings db t recs).1.filings) := by
  have hmem : ∀ x : FilingRow,
      x ∈ (recs.foldl (upsertStep t)
        { updated := db.filings, created := [], nextId := db.nextFilingId }).updated →
      x ∈ (upsert_filings db t recs).1.filings := by
    intro x hx
    simp only [upsert_filings]
    exact List.mem_append.mpr (Or.inl hx)
  constructor
  · rcases foldl_upsertStep_frame t recs
      { updated := db.filings, created := [], nextId := db.nextFilingId }
      (Or.inl hf) with h | h
    · exact Or.inl (hmem _ h)
    · exact Or.inr (hmem _ h)
  · intro hnd hex
    exact hmem _ (foldl_upsertStep_hit t recs
      { updated := db.filings, created := [], nextId := db.nextFilingId }
      hnd (Or.inl hf) hex)

/-- Witness for `upsert_filings_existing_row_frame`: a persisted row
re-sighted by a record that carries a different title, url, date, type
and hash ends with only `is_new` cleared. -/
theorem upsert_filings_existing_row_frame_witness :
    row0 ∈ dbF.filings ∧ (dbF.filings.map rowKey).Nodup ∧
    draftKey draft9 = rowKey row0 ∧
    { row0 with is_new := false } ∈ (upsert_filings dbF tkA [draft9]).1.filings :=
  ⟨by decide, by decide, by decide,
   (upsert_filings_existing_row_frame dbF tkA [draft9] row0 (by decide)).2
     (by decide) ⟨draft9, by simp, by decide⟩⟩

/-- C4.  Alert conservation: whenever `run_once` completes (returning the
list of newly inserted filings), exactly one alert per inserted filing
has been created — the new alerts reference precisely the inserted rows,
in order, so no alert is ever created for a re-sighted filing — and a run
that inserts nothing creates no alerts.  (Structurally, the alerts are
created by the single `add_alerts_for_filings` call that `run_once` makes
after all upserts complete.) -/
theorem run_once_alert_conservation (fetch : FetchFn) (secE : Bool) (now : Nat)
    (db : DB) (syms : Option (List String)) (db' : DB) (inserted : List FilingRow)
    (h : run_once fetch secE now db syms = (db', .ok inserted)) :
    db'.alerts.length = db.alerts.length + inserted.length ∧
    (db'.alerts.drop db.alerts.length).map (fun a => a.filing_id) = inserted.map (fun f => f.id) ∧
    (inserted = [] → db'.alerts = db.alerts) := by
  rcases hp : processTickers fetch secE (filterBySymbols (list_watchlist db) syms) db []
    with ⟨dbp, r⟩
  cases r with
  | error e =>
    rw [run_once_of_error hp] at h
    injection h with h1 h2
    exact Except.noConfusion h2
  | ok acc =>
    rw [run_once_of_ok hp] at h
    injection h with h1 h2
    injection h2 with h2
    subst h2
    have halerts : dbp.alerts = db.alerts := by
      have ha := processTickers_alerts fetch secE
        (filterBySymbols (list_watchlist db) syms) db []
      rw [hp] at ha
      exact ha
    by_cases hacc : acc.isEmpty
    · rw [if_pos hacc] at h1
      subst h1
      have hnil : acc = [] := List.isEmpty_iff.mp hacc
      subst hnil
      refine ⟨by simp [halerts], ?_, fun _ => halerts⟩
      rw [halerts, List.drop_length]
      rfl
    · rw [if_neg hacc] at h1
      subst h1
      rw [add_alerts_alerts_eq, halerts]
      refine ⟨?_, ?_, ?_⟩
      · simp [add_alerts_length]
      · rw [List.drop_left]
        exact add_alerts_filing_ids dbp now acc
      · intro hnil
        subst hnil
        simp at hacc

/-- Witness for `run_once_alert_conservation`: a run over the fresh
database in which every ticker's fetch succeeds inserts three filings and
creates exactly three alerts, one per inserted row. -/
theorem run_once_alert_conservation_witness :
    run_once fetchOk true 7 db0 none = (dbAfterOk, .ok rows3) ∧
    dbAfterOk.alerts.length = db0.alerts.length + rows3.length ∧
    (dbAfterOk.alerts.drop db0.alerts.length).map (fun a => a.filing_id)
      = rows3.map (fun f => f.id) :=
  ⟨by decide,
   (run_once_alert_conservation fetchOk true 7 db0 none dbAfterOk rows3 (by decide)).1,
   (run_once_alert_conservation fetchOk true 7 db0 none dbAfterOk rows3 (by decide)).2.1⟩

/-- C5.  The `run_once` contract: (i) a filter symbol that matches no
watched ticker is silently ignored — adding it to a (non-empty) filter
changes nothing and raises no error; (ii) a ticker without a resolvable
external identifier (falsy `cik`) is skipped, contributing nothing to the
run; (iii) a completed run returns exactly the newly inserted filings
across all processed tickers: the persisted filing count grows by the
length of the returned list, which is the count the caller reports. -/
theorem run_once_contract :
    (∀ (fetch : FetchFn) (secE : Bool) (now : Nat) (db : DB) (s : String)
      (syms : List String), syms ≠ [] →
      pyUpper (pyStrip s) ∉ (list_watchlist db).map (fun t => t.symbol) →
      run_once fetch secE now db (some (s :: syms))
        = run_once fetch secE now db (some syms)) ∧
    (∀ (fetch : FetchFn) (secE : Bool) (ts1 ts2 : List Ticker) (t : Ticker)
      (db : DB) (acc : List FilingRow), cikTruthy t.cik = false →
      processTickers fetch secE (ts1 ++ t :: ts2) db acc
        = processTickers fetch secE (ts1 ++ ts2) db acc) ∧
    (∀ (fetch : FetchFn) (secE : Bool) (now : Nat) (db db' : DB)
      (syms : Option (List String)) (inserted : List FilingRow),
      run_once fetch secE now db syms = (db', .ok inserted) →
      db'.filings.length = db.filings.length + inserted.length) := by
  refine ⟨?_, ?_, ?_⟩
  · intro fetch secE now db s syms hne hunk
    have hfil : filterBySymbols (list_watchlist db) (some (s :: syms))
        = filterBySymbols (list_watchlist db) (some syms) := by
      cases syms with
      | nil => exact absurd rfl hne
      | cons s0 rest =>
        simp only [filterBySymbols]
        by_cases hb : (pyStrip s == "") = true
        · simp [List.filter_cons, hb]
        · simp only [List.filter_cons, hb, Bool.not_false, if_pos, Bool.not_true,
            Bool.false_eq_true, if_false, List.map_cons]
          apply List.filter_congr
          intro t ht
          have hne2 : ¬ t.symbol = pyUpper (pyStrip s) := by
            intro hEq
            exact hunk (hEq ▸ List.mem_map_of_mem (fun t => t.symbol) ht)
          simp only [List.contains_cons, beq_eq_false_iff_ne.mpr hne2, Bool.false_or]
    unfold run_once
    dsimp only
    rw [hfil]
  · intro fetch secE ts1 ts2 t db acc h
    have hskip : (secE && cikTruthy t.cik) = false := by simp [h]
    induction ts1 generalizing db acc with
    | nil =>
      simp only [List.nil_append]
      exact processTickers_cons_skip hskip
    | cons t1 ts1 ih =>
      simp only [List.cons_append]
      by_cases hc : (secE && cikTruthy t1.cik) = true
      · cases hf : fetch t1 with
        | error e => rw [processTickers_cons_error hc hf, processTickers_cons_error hc hf]
        | ok metas =>
          rw [processTickers_cons_ok hc hf, processTickers_cons_ok hc hf]
          exact ih _ _
      · have hc' : (secE && cikTruthy t1.cik) = false := by
          revert hc; cases secE && cikTruthy t1.cik <;> simp
        rw [processTickers_cons_skip hc', processTickers_cons_skip hc']
        exact ih _ _
  · intro fetch secE now db db' syms inserted h
    rcases hp : processTickers fetch secE (filterBySymbols (list_watchlist db) syms) db []
      with ⟨dbp, r⟩
    cases r with
    | error e =>
      rw [run_once_of_error hp] at h
      injection h with h1 h2
      exact Except.noConfusion h2
    | ok acc =>
      rw [run_once_of_ok hp] at h
      injection h with h1 h2
      injection h2 with h2
      subst h2
      have hlen := processTickers_filings_length fetch secE
        (filterBySymbols (list_watchlist db) syms) db [] dbp acc hp
      by_cases hacc : acc.isEmpty
      · rw [if_pos hacc] at h1
        subst h1
        simpa using hlen
      · rw [if_neg hacc] at h1
        subst h1
        rw [add_alerts_filings_eq]
        simpa using hlen

/-- Witness for `run_once_contract`: the unknown symbol `ZZZ` added to
the filter changes nothing; the cik-less ticker `DDD` is skipped; the
successful unfiltered run grows the store by exactly the three filings it
returns. -/
theorem run_once_contract_witness :
    run_once fetchOk true 7 db0 (some ["ZZZ", "AAA"])
      = run_once fetchOk true 7 db0 (some ["AAA"]) ∧
    processTickers fetchOk true ([] ++ tkNoCik :: [tkA]) db0 []
      = processTickers fetchOk true ([] ++ [tkA]) db0 [] ∧
    dbAfterOk.filings.length = db0.filings.length + rows3.length :=
  ⟨run_once_contract.1 fetchOk true 7 db0 "ZZZ" ["AAA"] (by decide) (by decide),
   run_once_contract.2.1 fetchOk true [] [tkA] tkNoCik db0 [] (by decide),
   run_once_contract.2.2 fetchOk true 7 db0 dbAfterOk none rows3 (by decide)⟩

theorem parseRow_isSome (r : RecentFilings) (ticker : String) (cikInt i : Nat) :
    (parseRow r ticker cikInt i).isSome =
      (!(r.accessionNumber.getD i "" == "") &&
        (!(r.filingDate.getD i "" == "") &&
          (parseISODate (r.filingDate.getD i "")).isSome)) := by
  unfold parseRow
  cases hA : (r.accessionNumber.getD i "" == "") <;>
    cases hB : (r.filingDate.getD i "" == "") <;>
      simp only [hA, hB, Bool.false_or, Bool.or_false, Bool.or_true, Bool.true_or,
        Bool.not_false, Bool.not_true, Bool.true_and, Bool.false_and, Bool.and_false,
        if_true, if_false, Bool.false_eq_true, Option.isSome_none] <;>
      first
        | rfl
        | (cases hp : parseISODate (r.filingDate.getD i "") <;> simp [hp])

/-- C6.  Per-record dropping in `_parse_recent_filings`: for every raw
batch, exactly the rows (within the `limit` window) that have a non-empty
accession number, a non-empty date field and a date `fromisoformat`
accepts survive — a malformed row is dropped individually and never
aborts the rest.  Concretely, the five-row batch whose third row carries
the unparseable date `bad-date` parses to four records, and upserting
them into the fresh store persists exactly four filings. -/
theorem parse_drops_malformed_individually :
    (∀ (r : RecentFilings) (ticker : String) (cikInt limit : Nat),
      (parse_recent_filings r ticker cikInt limit).length =
        ((List.range (min r.accessionNumber.length limit)).filter (fun i =>
          !(r.accessionNumber.getD i "" == "") &&
            (!(r.filingDate.getD i "" == "") &&
              (parseISODate (r.filingDate.getD i "")).isSome))).length) ∧
    (parse_recent_filings batch5 "ACME" 123 10).length = 4 ∧
    (upsert_filings db0 tkA
      ((parse_recent_filings batch5 "ACME" 123 10).map draftOfMeta)).2.length = 4 ∧
    (upsert_filings db0 tkA
      ((parse_recent_filings batch5 "ACME" 123 10).map draftOfMeta)).1.filings.length = 4 := by
  refine ⟨?_, by decide, by decide, by decide⟩
  intro r ticker cikInt limit
  unfold parse_recent_filings
  rw [length_filterMap_isSome]
  congr 1
  apply List.filter_congr
  intro i _
  exact parseRow_isSome r ticker cikInt i

/-- C7 counterexample: a raw record whose optional title field is absent
but whose primary-document field is present and whose form is `10-K`
parses to a `FilingMeta` with an empty (`None`) title — the fallback
title derived from the filing type is *not* substituted. -/
theorem parse_title_fallback_cex :
    (parse_recent_filings c7recent "ACME" 1 10).map (fun m => m.title) = [none] ∧
    (parse_recent_filings c7recent "ACME" 1 10).map (fun m => m.type) = ["10-K"] := by
  decide

/-- C7 (amended).  The fallback title derived from the filing type is
substituted for a missing title only when the primary-document field is
*also* empty or missing: a valid single-row batch with no primary
document and no description gets `form` as its title (or `None` when the
form itself is empty), while the same batch with a non-empty primary
document keeps the title `None`. -/
theorem parse_title_fallback_requires_missing_doc
    (a f d t : String) (c : Nat) (dt : Date)
    (ha : ¬ a = "") (hd : ¬ d = "") (hp : parseISODate d = some dt) :
    ((parse_recent_filings ⟨[a], [f], [d], [], []⟩ t c 1).map (fun m => m.title)
        = [if f = "" then none else some f]) ∧
    (∀ p, ¬ p = "" →
      (parse_recent_filings ⟨[a], [f], [d], [p], []⟩ t c 1).map (fun m => m.title)
        = [none]) := by
  have ha' : (a == "") = false := beq_eq_false_iff_ne.mpr ha
  have hd' : (d == "") = false := beq_eq_false_iff_ne.mpr hd
  constructor
  · simp [parse_recent_filings, parseRow, ha', hd', hp, List.range_succ]
  · intro p hpne
    have hq : (p == "") = false := beq_eq_false_iff_ne.mpr hpne
    simp [parse_recent_filings, parseRow, ha', hd', hp, hq, List.range_succ]

/-- Witness for `parse_title_fallback_requires_missing_doc` at a concrete
valid record. -/
theorem parse_title_fallback_requires_missing_doc_witness :
    ((parse_recent_filings ⟨["acc-1"], ["10-K"], ["2024-01-10"], [], []⟩ "ACME" 1 1).map
        (fun m => m.title) = [if ("10-K" : String) = "" then none else some "10-K"]) ∧
    ((parse_recent_filings ⟨["acc-1"], ["10-K"], ["2024-01-10"], ["doc.htm"], []⟩ "ACME" 1 1).map
        (fun m => m.title) = [none]) :=
  ⟨(parse_title_fallback_requires_missing_doc "acc-1" "10-K" "2024-01-10" "ACME" 1
      ⟨2024, 1, 10⟩ (by decide) (by decide) (by decide)).1,
   (parse_title_fallback_requires_missing_doc "acc-1" "10-K" "2024-01-10" "ACME" 1
      ⟨2024, 1, 10⟩ (by decide) (by decide) (by decide)).2 "doc.htm" (by decide)⟩

/-- C9 counterexample: a persisted filing whose non-null hash `MOCK123`
does *not* begin with the literal `mock` is nevertheless hidden from
`list_filings` — SQLite's default `LIKE` is case-insensitive for ASCII,
so `_non_mock_clause` also excludes upper-case `MOCK...`/`Mock...`
hashes, falsifying the claim's "filings with a null hash or any other
hash are included". -/
theorem mock_filter_case_insensitive_cex :
    upperMockRow ∈ db9u.filings ∧
    upperMockRow.hash = some "MOCK123" ∧
    strStartsWith "MOCK123" "mock" = false ∧
    (list_filings db9u 100).map (fun p => p.1) = [realRow] := by
  decide

/-- C9 (amended).  The listing queries silently exclude every persisted
filing whose hash is non-null and matches `mock%` up to ASCII case
(`mock...`, `MOCK...`, `Mock...`, ... — SQLite's default `LIKE`, which
the repo's hard-coded SQLite engine uses, is ASCII-case-insensitive):
(i)–(ii) every row either query returns satisfies `_non_mock_clause`
(null hash, or a hash not beginning with `mock` in any ASCII case);
(iii) conversely a persisted filing passing the clause, joined to its
ticker, is returned by `list_filings` (whenever the result fits the
LIMIT window); (iv) yet a mock-hash record is upserted like any other —
it is persisted and the follow-up alert call creates its alert — so such
filings exist and alert but never appear in the lists. -/
theorem mock_filings_hidden_from_listings :
    (∀ (db : DB) (limit : Nat) (p : FilingRow × Ticker),
      p ∈ list_filings db limit → non_mock_clause p.1 = true) ∧
    (∀ (db : DB) (symbols : List String) (limit : Nat) (p : FilingRow × Ticker),
      p ∈ list_filings_for_symbols db symbols limit → non_mock_clause p.1 = true) ∧
    (∀ (db : DB) (limit : Nat) (f : FilingRow) (t : Ticker),
      f ∈ db.filings → t ∈ db.tickers → t.id = f.ticker_id →
      non_mock_clause f = true →
      ((joinTickers db).filter (fun p => non_mock_clause p.1)).length ≤ limit →
      (f, t) ∈ list_filings db limit) ∧
    (∀ (db : DB) (tk : Ticker) (rec : FilingDraft) (now : Nat),
      (∃ h, rec.hash = some h ∧ strStartsWithCI h "mock" = true) →
      (db.filings.find? (keyMatches rec.source rec.filing_id)).isSome = false →
      (upsert_filings db tk [rec]).2.length = 1 ∧
      (upsert_filings db tk [rec]).1.filings.length = db.filings.length + 1 ∧
      (add_alerts_for_filings (upsert_filings db tk [rec]).1 now
        (upsert_filings db tk [rec]).2).1.alerts.length = db.alerts.length + 1) := by
  refine ⟨?_, ?_, ?_, ?_⟩
  · intro db limit p hp
    unfold list_filings at hp
    have h1 := mem_sortBy.mp (List.mem_of_mem_take hp)
    exact (List.mem_filter.mp h1).2
  · intro db symbols limit p hp
    unfold list_filings_for_symbols at hp
    by_cases he : symbols.isEmpty
    · rw [if_pos he] at hp
      cases hp
    · rw [if_neg he] at hp
      have h1 := mem_sortBy.mp (List.mem_of_mem_take hp)
      have hab := (List.mem_filter.mp h1).2
      simp only [Bool.and_eq_true] at hab
      exact hab.2
  · intro db limit f t hf ht hid hnm hlim
    have hjoin : (f, t) ∈ joinTickers db := by
      unfold joinTickers
      refine List.mem_flatMap.mpr ⟨f, hf, ?_⟩
      exact List.mem_map.mpr ⟨t, List.mem_filter.mpr ⟨ht, by simp [hid]⟩, rfl⟩
    have hfil : (f, t) ∈ (joinTickers db).filter (fun p => non_mock_clause p.1) :=
      List.mem_filter.mpr ⟨hjoin, hnm⟩
    unfold list_filings
    rw [List.take_of_length_le (by rw [length_sortBy]; exact hlim)]
    exact mem_sortBy.mpr hfil
  · intro db tk rec now hmock hfind
    have h2 : (upsert_filings db tk [rec]).2.length = 1 := by
      simp [upsert_filings, upsertStep, hfind]
    refine ⟨h2, ?_, ?_⟩
    · rw [upsert_filings_length, h2]
    · rw [add_alerts_alerts_eq, List.length_append, add_alerts_length,
        upsert_filings_alerts, h2]

/-- Witness for `mock_filings_hidden_from_listings`: in a store holding
one mock-hash filing and one null-hash filing, the returned rows all pass
the non-mock clause, the null-hash filing is listed, and upserting a
fresh mock-hash record into the fresh store inserts one row and creates
one alert. -/
theorem mock_filings_hidden_from_listings_witness :
    non_mock_clause realRow = true ∧
    (realRow, tkA) ∈ list_filings db9 100 ∧
    (upsert_filings db0 tkA [mockDraft]).2.length = 1 ∧
    (upsert_filings db0 tkA [mockDraft]).1.filings.length = db0.filings.length + 1 ∧
    (add_alerts_for_filings (upsert_filings db0 tkA [mockDraft]).1 7
      (upsert_filings db0 tkA [mockDraft]).2).1.alerts.length = db0.alerts.length + 1 := by
  have hmem : (realRow, tkA) ∈ list_filings db9 100 :=
    mock_filings_hidden_from_listings.2.2.1 db9 100 realRow tkA (by decide) (by decide)
      (by decide) (by decide) (by decide)
  have h4 := mock_filings_hidden_from_listings.2.2.2 db0 tkA mockDraft 7
    ⟨"mock123", by decide, by decide⟩ (by decide)
  exact ⟨mock_filings_hidden_from_listings.1 db9 100 (realRow, tkA) hmem,
    hmem, h4.1, h4.2.1, h4.2.2⟩

/-- C1 counterexample: with three watched tickers (all having ciks) whose
second fetch raises `SourceUnavailable`, `run_once` does *not* catch the
error and does *not* return the insertions of the first and third
tickers: the call surfaces the uncaught error, only the first ticker's
filing is persisted (nothing from the third), and no alerts are
created. -/
theorem run_once_source_error_not_caught_cex :
    (run_once fetch3 true 7 db0 none).2 = .error .sourceUnavailable ∧
    ((run_once fetch3 true 7 db0 none).1.filings.map (fun f => f.filing_id)) = ["acc-1"] ∧
    (run_once fetch3 true 7 db0 none).1.alerts = [] := by
  decide

theorem processTickers_abort (fetch : FetchFn) (tbad : Ticker) (post : List Ticker)
    (e : SourceError) (hbad : cikTruthy tbad.cik = true) (hfe : fetch tbad = .error e) :
    ∀ (pre : List Ticker) (db : DB) (acc : List FilingRow),
      (∀ t ∈ pre, ∃ ms, fetch t = .ok ms) →
      processTickers fetch true (pre ++ tbad :: post) db acc
        = ((processTickers fetch true pre db acc).1, .error e) := by
  intro pre
  induction pre with
  | nil =>
    intro db acc _
    simp only [List.nil_append]
    rw [processTickers_cons_error (by simp [hbad]) hfe]
    rfl
  | cons t1 pre ih =>
    intro db acc hpre
    simp only [List.cons_append]
    by_cases hc : (true && cikTruthy t1.cik) = true
    · rcases hpre t1 (List.mem_cons_self t1 pre) with ⟨ms, hms⟩
      rw [processTickers_cons_ok hc hms, processTickers_cons_ok hc hms]
      exact ih _ _ (fun t ht => hpre t (List.mem_cons_of_mem t1 ht))
    · have hc' : (true && cikTruthy t1.cik) = false := by
        revert hc; cases true && cikTruthy t1.cik <;> simp
      rw [processTickers_cons_skip hc', processTickers_cons_skip hc']
      exact ih _ _ (fun t ht => hpre t (List.mem_cons_of_mem t1 ht))

/-- C1 (amended).  A source error raised while fetching one ticker is not
caught inside `run_once`: it propagates out of the orchestrator, aborting
the run.  When the candidate ticker list splits as `pre ++ tbad :: post`
with every `pre` fetch succeeding and `tbad`'s fetch raising `e`, the run
surfaces `e`; the database is exactly the state left by processing `pre`
(those insertions were already committed per ticker), the `post` tickers
are never processed, and no alerts are created.  (The error is caught
only at the app's worker boundary, `_refresh_filings_worker`, which
reports the whole run as failed.) -/
theorem run_once_aborts_on_source_error (fetch : FetchFn) (now : Nat) (db : DB)
    (syms : Option (List String)) (pre post : List Ticker) (tbad : Ticker)
    (e : SourceError)
    (hsplit : filterBySymbols (list_watchlist db) syms = pre ++ tbad :: post)
    (hpre : ∀ t ∈ pre, ∃ ms, fetch t = .ok ms)
    (hbad : cikTruthy tbad.cik = true)
    (hfe : fetch tbad = .error e) :
    run_once fetch true now db syms
      = ((processTickers fetch true pre db []).1, .error e) ∧
    (run_once fetch true now db syms).1.alerts = db.alerts := by
  have habort := processTickers_abort fetch tbad post e hbad hfe pre db [] hpre
  have hrun : run_once fetch true now db syms
      = ((processTickers fetch true pre db []).1, .error e) :=
    run_once_of_error (by rw [hsplit]; exact habort)
  refine ⟨hrun, ?_⟩
  rw [hrun]
  exact processTickers_alerts fetch true pre db []

/-- Witness for `run_once_aborts_on_source_error`: the three-ticker
scenario with the second fetch failing. -/
theorem run_once_aborts_on_source_error_witness :
    run_once fetch3 true 7 db0 none
      = ((processTickers fetch3 true [tkA] db0 []).1, .error .sourceUnavailable) ∧
    (run_once fetch3 true 7 db0 none).1.alerts = db0.alerts :=
  run_once_aborts_on_source_error fetch3 7 db0 none [tkA] [tkC] tkB .sourceUnavailable
    (by decide)
    (by intro t ht
        rcases List.mem_singleton.mp ht with rfl
        exact ⟨[metaFor "acc-1"], by decide⟩)
    (by decide) (by decide)

/-- C2 counterexample: `upsert_filings` over the session model with two
fresh records, the store failing at the second record's SELECT.  The
exception surfaces with the first record's insert still pending — not
rolled back — and a later `session.commit()` persists that row.  This
falsifies both "the applied-but-uncommitted changes are rolled back
before the exception surfaces" and "no later operation can commit
them". -/
theorem upsert_filings_no_rollback_cex :
    upsertFilingsFailAt tkA [draft1, draft2] 1 sess0 = .error sessAfterFail ∧
    sessAfterFail.pending = [Mutation.insertRow rowOfDraft1] ∧
    (sessCommit sessAfterFail).committed = [rowOfDraft1] := by
  decide

theorem upsertFilingsSessGo_fail (t : Ticker) :
    ∀ (recs : List FilingDraft) (k : Nat) (s : Sess), k < recs.length →
      ∃ s', upsertFilingsSessGo t k recs s = .error s' ∧
        s'.committed = s.committed ∧ ∃ ms, s'.pending = s.pending ++ ms := by
  intro recs
  induction recs with
  | nil =>
    intro k s hk
    simp at hk
  | cons rec recs ih =>
    intro k s hk
    cases k with
    | zero => exact ⟨s, rfl, rfl, [], by simp⟩
    | succ k =>
      have hk' : k < recs.length := Nat.lt_of_succ_lt_succ (by simpa using hk)
      by_cases hf : (s.committed.find? (keyMatches rec.source rec.filing_id)).isSome = true
      · rcases ih k { s with pending := s.pending ++ [.clearNew rec.source rec.filing_id] }
          hk' with ⟨s', h1, h2, ms, h3⟩
        refine ⟨s', ?_, by simpa using h2,
          ⟨Mutation.clearNew rec.source rec.filing_id :: ms, ?_⟩⟩
        · simp only [upsertFilingsSessGo, hf, if_pos]
          exact h1
        · simp only at h3
          rw [h3, List.append_assoc]
          rfl
      · rcases ih k { s with
            pending := s.pending ++ [.insertRow
              { id := s.nextId, ticker_id := t.id, filing_id := rec.filing_id
                type := rec.type, title := rec.title, date := rec.date, url := rec.url
                source := rec.source, is_new := true, hash := rec.hash }]
            nextId := s.nextId + 1 } hk' with ⟨s', h1, h2, ms, h3⟩
        refine ⟨s', ?_, by simpa using h2,
          ⟨Mutation.insertRow
            { id := s.nextId, ticker_id := t.id, filing_id := rec.filing_id
              type := rec.type, title := rec.title, date := rec.date, url := rec.url
              source := rec.source, is_new := true, hash := rec.hash } :: ms, ?_⟩⟩
        · simp only [upsertFilingsSessGo, hf, Bool.false_eq_true, if_false]
          exact h1
        · simp only at h3
          rw [h3, List.append_assoc]
          rfl

/-- C2 (amended).  `upsert_filings` never commits mid-batch, but it also
never rolls back: if the store fails at record `k` of the batch, the
exception surfaces with the committed table exactly as it was before the
call (none of the batch's mutations are persisted *at that moment*), and
with the applied-but-uncommitted mutations still pending on the session —
so a later commit on the same session can persist them (in the deployed
app the worker instead closes the session after a failure, discarding
them). -/
theorem upsert_filings_no_partial_commit (t : Ticker) (recs : List FilingDraft)
    (k : Nat) (s : Sess) (hk : k < recs.length) :
    ∃ s', upsertFilingsFailAt t recs k s = .error s' ∧
      s'.committed = s.committed ∧ ∃ ms, s'.pending = s.pending ++ ms := by
  rcases upsertFilingsSessGo_fail t recs k s hk with ⟨s', h1, h2, h3⟩
  refine ⟨s', ?_, h2, h3⟩
  unfold upsertFilingsFailAt
  rw [h1]

/-- Witness for `upsert_filings_no_partial_commit`: the two-record batch
failing at its second record over the empty session. -/
theorem upsert_filings_no_partial_commit_witness :
    1 < ([draft1, draft2] : List FilingDraft).length ∧
    ∃ s', upsertFilingsFailAt tkA [draft1, draft2] 1 sess0 = .error s' ∧
      s'.committed = sess0.committed ∧ ∃ ms, s'.pending = sess0.pending ++ ms :=
  ⟨by decide, upsert_filings_no_partial_commit tkA [draft1, draft2] 1 sess0 (by decide)⟩

end FinTerm
